import Mathlib

/-!
Verification of the PasswordCrack-Suite candidate-generation and matching core.

Shallow embedding of `src/passwordcrack/hash_utils.py` and the attack engines
(`attack_engines/bruteforce_engine.py`, `mask_engine.py`, `dictionary_engine.py`,
`rule_engine.py`).  Cryptographic library primitives (hashlib digests, bcrypt,
argon2, pbkdf2_hmac, os.urandom, int()/bytes.fromhex parsing) are external
collaborators of the code under verification; they are modelled as oracle
fields of a `CryptoEnv` record, while every piece of control flow, string
normalization, enumeration and comparison logic is translated directly from
the Python source.  Python exceptions are modelled with `Except`; the source's
`try/except` blocks become total functions exactly where the source catches
everything.
-/

/-- Python `str.isspace`-relevant characters for `str.strip()`:
space, tab, newline, carriage return, vertical tab, form feed. -/
def pyIsSpace (c : Char) : Bool :=
  c == ' ' || c == '\t' || c == '\n' || c == '\r' || c == Char.ofNat 11 || c == Char.ofNat 12

/-- Python `str.strip()`: remove leading and trailing whitespace. -/
def pyStrip (s : String) : String :=
  String.mk (((s.toList.dropWhile pyIsSpace).reverse.dropWhile pyIsSpace).reverse)

/-- Python `str.lower()` (ASCII range, which is all the source ever folds). -/
def pyLower (s : String) : String :=
  String.mk (s.toList.map Char.toLower)

/-- Python `str.upper()` (ASCII range). -/
def pyUpper (s : String) : String :=
  String.mk (s.toList.map Char.toUpper)

/-- Python `str.capitalize()`: first character uppercased, the rest lowercased. -/
def pyCapitalize (s : String) : String :=
  match s.toList with
  | [] => ""
  | c :: rest => String.mk (Char.toUpper c :: rest.map Char.toLower)

/-- Python `str.replace(old, new)` for a single-character pattern: every
occurrence of `old` is replaced by `new` (equivalent to a character map since
the pattern has length one). -/
def strReplace (s : String) (old new : Char) : String :=
  String.mk (s.toList.map (fun c => if c == old then new else c))

/-- Python `f"i:02d"` formatting for the 0..99 range used by the digit rules. -/
def format02 (i : Nat) : String :=
  if i < 10 then "0" ++ toString i else toString i

/-- One hex digit, lowercase, as produced by Python `bytes.hex()`. -/
def hexChar (n : Nat) : Char :=
  if n < 10 then Char.ofNat ('0'.toNat + n)
  else if n < 16 then Char.ofNat ('a'.toNat + (n - 10))
  else '0'

/-- Python `bytes.hex()`: two lowercase hex digits per byte. -/
def bytesHex (bs : List Nat) : String :=
  String.mk (bs.flatMap (fun b => [hexChar (b / 16 % 16), hexChar (b % 16)]))

/-- `HashAlgorithm` enum from `hash_utils.py`. -/
inductive HashAlgorithm where
  | MD5
  | SHA1
  | SHA256
  | SHA512
  | NTLM
  | BCRYPT
  | PBKDF2_SHA256
  | ARGON2
  deriving DecidableEq

/-- Oracle record for the external cryptographic collaborators used by
`hash_utils.py`.  Each field models one library call; availability flags model
the `BCRYPT_AVAILABLE` / `ARGON2_AVAILABLE` import guards.  `pyInt` and
`fromHex` model `int()` and `bytes.fromhex()`, with `none` standing for the
`ValueError` (or a downstream `pbkdf2_hmac` error on a negative count) that the
caller's `except` swallows. -/
structure CryptoEnv where
  md5 : String → String
  sha1 : String → String
  sha256 : String → String
  sha512 : String → String
  ntlm : String → String
  bcryptAvailable : Bool
  bcryptHash : String → String
  bcryptCheckpw : String → String → Bool
  argon2Available : Bool
  argon2Hash : String → String
  argon2VerifyOk : String → String → Bool
  pbkdf2Hex : String → List Nat → Nat → String
  urandomSalt : List Nat
  pyInt : String → Option Nat
  fromHex : String → Option (List Nat)

/-- `HashUtils.generate_hash` (hash_utils.py lines 42-104).  Raising
`ValueError` is modelled as `Except.error` carrying the source's message. -/
def generateHash (env : CryptoEnv) (password : String) (algorithm : HashAlgorithm)
    (salt : Option (List Nat)) (rounds : Nat) : Except String String :=
  match algorithm with
  | .MD5 => .ok (env.md5 password)
  | .SHA1 => .ok (env.sha1 password)
  | .SHA256 => .ok (env.sha256 password)
  | .SHA512 => .ok (env.sha512 password)
  | .NTLM => .ok (env.ntlm password)
  | .BCRYPT =>
      if env.bcryptAvailable then .ok (env.bcryptHash password)
      else .error "bcrypt library not installed. Install with: pip install bcrypt"
  | .PBKDF2_SHA256 =>
      let saltBytes := salt.getD env.urandomSalt
      let iterations := max (rounds * 10000) 100000
      .ok (toString iterations ++ "$" ++ bytesHex saltBytes ++ "$" ++
        env.pbkdf2Hex password saltBytes iterations)
  | .ARGON2 =>
      if env.argon2Available then .ok (env.argon2Hash password)
      else .error "argon2-cffi library not installed. Install with: pip install argon2-cffi"

/-- `HashUtils.verify_hash` (hash_utils.py lines 106-154).  The outer
`try/except: return False` makes the function total; every internal failure
path yields `false`. -/
def verifyHash (env : CryptoEnv) (password hashValue : String)
    (algorithm : HashAlgorithm) : Bool :=
  match algorithm with
  | .BCRYPT =>
      if env.bcryptAvailable then env.bcryptCheckpw password hashValue else false
  | .ARGON2 =>
      if env.argon2Available then env.argon2VerifyOk hashValue password else false
  | .PBKDF2_SHA256 =>
      let parts := hashValue.splitOn "$"
      if parts.length == 3 then
        match env.pyInt (parts.getD 0 ""), env.fromHex (parts.getD 1 "") with
        | some iterations, some saltBytes =>
            env.pbkdf2Hex password saltBytes iterations == parts.getD 2 ""
        | _, _ => false
      else false
  | _ =>
      match generateHash env password algorithm none 10 with
      | .ok generated => pyLower generated == pyLower hashValue
      | .error _ => false

/-- The `_try_password` body shared verbatim by `BruteforceEngine`,
`MaskEngine`, `DictionaryEngine` and `RuleEngine`: hash the candidate, then
for BCRYPT / ARGON2 / PBKDF2_SHA256 delegate to `HashUtils.verify_hash`,
otherwise compare digests case-insensitively; any exception is caught and
yields `false`. -/
def tryPassword (env : CryptoEnv) (hashValue : String) (algorithm : HashAlgorithm)
    (password : String) : Bool :=
  match generateHash env password algorithm none 10 with
  | .error _ => false
  | .ok candidateHash =>
      if algorithm ∈ [HashAlgorithm.BCRYPT, HashAlgorithm.ARGON2, HashAlgorithm.PBKDF2_SHA256]
      then verifyHash env password hashValue algorithm
      else pyLower candidateHash == pyLower hashValue

/-- Python truthiness test `if max_attempts and self.attempts >= max_attempts`:
`None` and `0` are both falsy, so the cap fires only for a nonzero cap value
already reached by the attempt counter. -/
def capHit : Option Nat → Nat → Bool
  | none, _ => false
  | some m, attempts => decide (m ≠ 0 ∧ m ≤ attempts)

/-- The engines' shared `attack` loop (bruteforce_engine.py lines 73-93,
mask_engine.py lines 100-120): count the candidate, break (returning `None`)
once the cap is hit, otherwise try the candidate and return it on a match.
The progress callback is a pure observability hook and is elided. -/
def attackGo (tryPw : String → Bool) (maxAttempts : Option Nat) :
    List String → Nat → Option String × Nat
  | [], attempts => (none, attempts)
  | candidate :: rest, attempts =>
      let attempts' := attempts + 1
      if capHit maxAttempts attempts' then (none, attempts')
      else if tryPw candidate then (some candidate, attempts')
      else attackGo tryPw maxAttempts rest attempts'

/-- An attack run over an explicit candidate list: returns the found password
(if any) together with the final attempt counter. -/
def attackRun (tryPw : String → Bool) (candidates : List String)
    (maxAttempts : Option Nat) : Option String × Nat :=
  attackGo tryPw maxAttempts candidates 0

/-- `BruteforceEngine.CHARSETS`. -/
def CHARSETS : List (String × String) :=
  [("lowercase", "abcdefghijklmnopqrstuvwxyz"),
   ("uppercase", "ABCDEFGHIJKLMNOPQRSTUVWXYZ"),
   ("digits", "0123456789"),
   ("special", "!@#$%^&*()_+-=[]\x7b\x7d|;:,.<>?"),
   ("space", " ")]

/-- Charset resolution in `BruteforceEngine.__init__`: a known name maps to
its predefined set, anything else is taken as a custom charset string. -/
def resolveCharset (charset : String) : String :=
  match CHARSETS.lookup charset with
  | some cs => cs
  | none => charset

/-- `BruteforceEngine` configuration state (the fields set in `__init__`). -/
structure BruteforceEngine where
  hashValue : String
  algorithm : HashAlgorithm
  charset : String
  minLength : Nat
  maxLength : Nat

/-- `BruteforceEngine.__init__` (bruteforce_engine.py lines 25-56):
`hash_value.strip().lower()`, `max(1, min_length)`, `max(min_length, max_length)`,
charset-name resolution.  Lengths are Python ints, hence `Int` arguments. -/
def BruteforceEngine.init (hashValue : String) (algorithm : HashAlgorithm)
    (charset : String) (minLength maxLength : Int) : BruteforceEngine :=
  let minL : Int := max 1 minLength
  let maxL : Int := max minL maxLength
  { hashValue := pyLower (pyStrip hashValue)
    algorithm := algorithm
    charset := resolveCharset charset
    minLength := minL.toNat
    maxLength := maxL.toNat }

/-- `itertools.product(charset, repeat := n)` over a character list: all
length-`n` tuples, leftmost position varying slowest. -/
def pyProduct (cs : List Char) : Nat → List (List Char)
  | 0 => [[]]
  | n + 1 => cs.flatMap (fun c => (pyProduct cs n).map (fun t => c :: t))

/-- `BruteforceEngine._generate_candidates` (lines 118-127):
`for length in range(min_length, max_length + 1)` then the character product. -/
def bruteGenerateCandidates (e : BruteforceEngine) : List String :=
  (List.range' e.minLength (e.maxLength + 1 - e.minLength)).flatMap
    (fun len => (pyProduct e.charset.toList len).map (fun combo => String.mk combo))

/-- `BruteforceEngine.attack`: the shared loop over the generated candidates. -/
def bruteAttack (env : CryptoEnv) (e : BruteforceEngine)
    (maxAttempts : Option Nat) : Option String × Nat :=
  attackRun (tryPassword env e.hashValue e.algorithm) (bruteGenerateCandidates e) maxAttempts

/-- The letters recognized after `?` in `MaskEngine.MASK_CHARS`. -/
def placeholderLetters : List Char := ['l', 'u', 'd', 's', 'a', 'h', 'H']

/-- `MaskEngine.MASK_CHARS` resolution for a recognized placeholder letter
(`?a` is computed in `__init__` as lowercase+uppercase+digits+special). -/
def maskCharsFor (c : Char) : String :=
  match c with
  | 'l' => "abcdefghijklmnopqrstuvwxyz"
  | 'u' => "ABCDEFGHIJKLMNOPQRSTUVWXYZ"
  | 'd' => "0123456789"
  | 's' => "!@#$%^&*()_+-=[]\x7b\x7d|;:,.<>?"
  | 'a' => "abcdefghijklmnopqrstuvwxyz" ++ "ABCDEFGHIJKLMNOPQRSTUVWXYZ" ++
           "0123456789" ++ "!@#$%^&*()_+-=[]\x7b\x7d|;:,.<>?"
  | 'h' => "0123456789abcdef"
  | 'H' => "0123456789ABCDEF"
  | _ => ""

/-- `MaskEngine._parse_mask` (mask_engine.py lines 59-83): scan left to right;
a two-character slice that is a `MASK_CHARS` key is consumed as a placeholder
(the position holds its charset string), otherwise one character is consumed
as a literal (the position holds a one-character string).  The final character
can never start a placeholder because the slice check needs two characters. -/
def parseMask : List Char → List String
  | [] => []
  | [a] => [String.mk [a]]
  | a :: b :: rest =>
      if a = '?' ∧ b ∈ placeholderLetters then maskCharsFor b :: parseMask rest
      else String.mk [a] :: parseMask (b :: rest)

/-- `MaskEngine` configuration state (the fields set in `__init__`). -/
structure MaskEngine where
  hashValue : String
  algorithm : HashAlgorithm
  mask : String
  maskPositions : List String

/-- `MaskEngine.__init__` (mask_engine.py lines 27-57). -/
def MaskEngine.init (hashValue : String) (algorithm : HashAlgorithm)
    (mask : String) : MaskEngine :=
  { hashValue := pyLower (pyStrip hashValue)
    algorithm := algorithm
    mask := mask
    maskPositions := parseMask mask.toList }

/-- `itertools.product(*charsets)`: Cartesian product of a list of lists,
leftmost position varying slowest. -/
def cartProd : List (List String) → List (List String)
  | [] => [[]]
  | xs :: rest => xs.flatMap (fun x => (cartProd rest).map (fun t => x :: t))

/-- `MaskEngine._generate_candidates` (lines 145-164): a length-1 position is
a literal with a single option, any other position expands to its characters;
then the product is joined into strings. -/
def maskGenerateCandidates (positions : List String) : List String :=
  let charsets := positions.map (fun pos =>
    if pos.length == 1 then [pos] else pos.toList.map (fun c => String.mk [c]))
  (cartProd charsets).map (fun combo => String.join combo)

/-- `MaskEngine.estimate_total_attempts` (lines 194-209). -/
def estimateTotalMask (positions : List String) : Nat :=
  positions.foldl (fun total pos =>
    if pos.length == 1 then total * 1 else total * pos.length) 1

/-- `MaskEngine.attack`: the shared loop over the mask-generated candidates. -/
def maskAttack (env : CryptoEnv) (e : MaskEngine)
    (maxAttempts : Option Nat) : Option String × Nat :=
  attackRun (tryPassword env e.hashValue e.algorithm)
    (maskGenerateCandidates e.maskPositions) maxAttempts

/-- `DictionaryEngine` configuration state. -/
structure DictionaryEngine where
  hashValue : String
  algorithm : HashAlgorithm

/-- `DictionaryEngine.__init__` (dictionary_engine.py lines 16-35). -/
def DictionaryEngine.init (hashValue : String) (algorithm : HashAlgorithm) :
    DictionaryEngine :=
  { hashValue := pyLower (pyStrip hashValue), algorithm := algorithm }

/-- `DictionaryEngine.attack` (lines 37-72): uncapped first-match loop over the
words supplied by the wordlist collaborator. -/
def dictAttack (env : CryptoEnv) (e : DictionaryEngine)
    (words : List String) : Option String × Nat :=
  attackRun (tryPassword env e.hashValue e.algorithm) words none

/-- One branch of `RuleEngine._apply_rules` (rule_engine.py lines 95-161):
the candidates a single named rule yields for one word.  An unknown rule name
matches no branch and yields nothing. -/
def ruleApply (word : String) (rule : String) : List String :=
  if rule == "original" then [word]
  else if rule == "capitalize" then [pyCapitalize word]
  else if rule == "uppercase" then [pyUpper word]
  else if rule == "lowercase" then [pyLower word]
  else if rule == "reverse" then [String.mk word.toList.reverse]
  else if rule == "append_digits" then (List.range 100).map (fun i => word ++ format02 i)
  else if rule == "prepend_digits" then (List.range 100).map (fun i => format02 i ++ word)
  else if rule == "append_year" then (List.range' 1990 36).map (fun y => word ++ toString y)
  else if rule == "append_special" then "!@#$%".toList.map (fun c => word ++ String.mk [c])
  else if rule == "leetspeak_simple" then
    [strReplace (strReplace (strReplace (strReplace (strReplace
      (pyLower word) 'a' '@') 'e' '3') 'i' '1') 'o' '0') 's' '$']
  else if rule == "duplicate" then [word ++ word]
  else if rule == "toggle_first" then
    match word.toList with
    | [] => []
    | c :: rest =>
        [String.mk ((if c.isUpper then c.toLower else c.toUpper) :: rest)]
  else if rule == "toggle_last" then
    match word.toList.reverse with
    | [] => []
    | c :: revInit =>
        [String.mk (revInit.reverse ++ [if c.isUpper then c.toLower else c.toUpper])]
  else []

/-- `RuleEngine._apply_rules`: all variants of one word, rules evaluated in
caller-given order, each rule's own candidate sequence concatenated. -/
def applyRules (word : String) (rules : List String) : List String :=
  rules.flatMap (ruleApply word)

/-- `RuleEngine` configuration state. -/
structure RuleEngine where
  hashValue : String
  algorithm : HashAlgorithm

/-- `RuleEngine.__init__` (rule_engine.py lines 29-48). -/
def RuleEngine.init (hashValue : String) (algorithm : HashAlgorithm) : RuleEngine :=
  { hashValue := pyLower (pyStrip hashValue), algorithm := algorithm }

/-- `RuleEngine.attack` (lines 50-93): outer loop over words, inner loop over
rule variants, which is the uncapped first-match loop over the flattened
variant sequence. -/
def ruleAttack (env : CryptoEnv) (e : RuleEngine) (words : List String)
    (rules : List String) : Option String × Nat :=
  attackRun (tryPassword env e.hashValue e.algorithm)
    (words.flatMap (fun w => applyRules w rules)) none

/-- Big-endian base-`n` digit expansion of `k` to exactly `L` digits: the
specification-side description of "count through the keyspace with the
leftmost position varying slowest". -/
def natTupleBE (n : Nat) : Nat → Nat → List Nat
  | 0, _ => []
  | L + 1, k => k / n ^ L :: natTupleBE n L (k % n ^ L)

/-- A concrete oracle instantiation used by concrete witness runs: fast
digests are the identity, both optional backends are present but reject
everything. -/
def envA : CryptoEnv :=
  { md5 := fun s => s
    sha1 := fun s => s
    sha256 := fun s => s
    sha512 := fun s => s
    ntlm := fun s => s
    bcryptAvailable := true
    bcryptHash := fun s => "$2b$hash" ++ s
    bcryptCheckpw := fun _ _ => false
    argon2Available := true
    argon2Hash := fun s => "$argon2$" ++ s
    argon2VerifyOk := fun _ _ => false
    pbkdf2Hex := fun _ _ _ => "aa"
    urandomSalt := [0]
    pyInt := fun _ => none
    fromHex := fun _ => none }

/-- `envA` with the bcrypt backend library absent. -/
def envNoBcrypt : CryptoEnv :=
  { envA with bcryptAvailable := false }

/-- `envA` with the argon2 backend library absent. -/
def envNoArgon2 : CryptoEnv :=
  { envA with argon2Available := false }

/-- An oracle instantiation whose bcrypt `checkpw` accepts exactly password
"pw" against the digest string "$2B$X" (standing for a salted digest whose
base64 section contains uppercase letters). -/
def envUpperDigest : CryptoEnv :=
  { envA with bcryptCheckpw := fun p h => p == "pw" && h == "$2B$X" }

/-- A concrete BCRYPT brute-force configuration with a two-candidate keyspace. -/
def engineBcryptSmall : BruteforceEngine :=
  BruteforceEngine.init "h" HashAlgorithm.BCRYPT "ab" 1 1

/-- A concrete ARGON2 brute-force configuration with a two-candidate keyspace. -/
def engineArgon2Small : BruteforceEngine :=
  BruteforceEngine.init "h" HashAlgorithm.ARGON2 "ab" 1 1

/-- A concrete BCRYPT brute-force configuration whose caller-supplied target
digest contains uppercase letters. -/
def engineUpperDigest : BruteforceEngine :=
  BruteforceEngine.init "$2B$X" HashAlgorithm.BCRYPT "ab" 1 1

/-- A concrete fast-hash brute-force configuration over the identity digest
oracle of `envA`: candidates "a", "b", target digest "b". -/
def engineFastSmall : BruteforceEngine :=
  BruteforceEngine.init "b" HashAlgorithm.SHA256 "ab" 1 1

/-- A concrete BCRYPT dictionary configuration. -/
def dictEngineBcrypt : DictionaryEngine :=
  DictionaryEngine.init "h" HashAlgorithm.BCRYPT

/-- The leetspeak substitution table seen as one simultaneous character map:
a→@, e→3, i→1, o→0, s→$, all other characters unchanged.  Used to express
that the source's five sequential single-character replacements neither
cascade nor interfere. -/
def leetTable (c : Char) : Char :=
  if c = 'a' then '@'
  else if c = 'e' then '3'
  else if c = 'i' then '1'
  else if c = 'o' then '0'
  else if c = 's' then '$'
  else c

/-- A cap value of `0` never fires (Python falsiness of `0`). -/
lemma attackGo_zero_cap (f : String → Bool) (cs : List String) :
    ∀ n, attackGo f (some 0) cs n = attackGo f none cs n := by
  induction cs with
  | nil => intro n; rfl
  | cons c rest ih =>
      intro n
      simp [attackGo, capHit, ih]

/-- An uncapped run over candidates that all fail exhausts the whole list. -/
lemma attackGo_none_exhaust (f : String → Bool) (cs : List String) :
    ∀ n, (∀ c ∈ cs, f c = false) → attackGo f none cs n = (none, n + cs.length) := by
  induction cs with
  | nil => intro n _; simp [attackGo]
  | cons c rest ih =>
      intro n h
      have hc : f c = false := h c (List.mem_cons_self c rest)
      simp only [attackGo, capHit, hc, Bool.false_eq_true, if_false]
      rw [ih (n + 1) (fun x hx => h x (List.mem_cons_of_mem c hx))]
      simp [Prod.ext_iff]
      omega

/-- The attempt counter of an uncapped run is a pure offset. -/
lemma attackGo_none_shift (f : String → Bool) (cs : List String) :
    ∀ n, attackGo f none cs n =
      ((attackGo f none cs 0).1, (attackGo f none cs 0).2 + n) := by
  induction cs with
  | nil => intro n; simp [attackGo]
  | cons c rest ih =>
      intro n
      by_cases hc : f c = true
      · simp [attackGo, capHit, hc, Nat.add_comm]
      · have hc' : f c = false := by simpa using hc
        simp only [attackGo, capHit, hc', Bool.false_eq_true, if_false]
        rw [ih (n + 1), ih 1]
        simp [Prod.ext_iff]
        omega

/-- If the first matching candidate sits at 0-indexed position `p` and the cap
(if any) is strictly beyond attempt `n + p + 1`, the loop returns it with the
counter at `n + p + 1`. -/
lemma attackGo_first_match (f : String → Bool) :
    ∀ (cs : List String) (p n : Nat) (cap : Option Nat),
      p < cs.length → f (cs.getD p "") = true →
      (∀ i, i < p → f (cs.getD i "") = false) →
      (∀ m, cap = some m → n + p + 1 < m) →
      attackGo f cap cs n = (some (cs.getD p ""), n + p + 1) := by
  intro cs
  induction cs with
  | nil => intro p n cap hp; simp at hp
  | cons c rest ih =>
      intro p n cap hp hf hbefore hcap
      have hcapHit : capHit cap (n + 1) = false := by
        cases cap with
        | none => rfl
        | some m =>
            have hm := hcap m rfl
            simp only [capHit, decide_eq_false_iff_not]
            omega
      cases p with
      | zero =>
          simp only [List.getD_cons_zero] at hf ⊢
          simp [attackGo, hcapHit, hf]
      | succ q =>
          have hc : f c = false := by
            have h0 := hbefore 0 (Nat.succ_pos q)
            simpa using h0
          simp only [List.getD_cons_succ] at hf ⊢
          simp only [attackGo, hcapHit, Bool.false_eq_true, if_false, hc]
          rw [ih q (n + 1) cap (by simpa using hp) hf
            (fun i hi => by
              have hb := hbefore (i + 1) (by omega)
              simpa using hb)
            (fun m hm => by have := hcap m hm; omega)]
          simp [Prod.ext_iff]
          omega

/-- With a positive cap `N` not exceeding the candidate count, the loop ends
in the capped no-match outcome `(none, N)` exactly when none of the first
`N - n - 1` remaining candidates matches. -/
lemma attackGo_capped_iff (f : String → Bool) (N : Nat) :
    ∀ (cs : List String) (n : Nat), 0 < N → n < N → N - n ≤ cs.length →
      (attackGo f (some N) cs n = (none, N) ↔
        ∀ i, i < N - n - 1 → f (cs.getD i "") = false) := by
  intro cs
  induction cs with
  | nil =>
      intro n hN hn hlen
      simp only [List.length_nil] at hlen
      omega
  | cons c rest ih =>
      intro n hN hn hlen
      by_cases hcap : N ≤ n + 1
      · have hNn : N = n + 1 := by omega
        subst hNn
        have hcapHit : capHit (some (n + 1)) (n + 1) = true := by
          simp only [capHit, decide_eq_true_eq]
          omega
        have hzero : n + 1 - n - 1 = 0 := by omega
        simp [attackGo, hcapHit, hzero]
      · have hcapHit : capHit (some N) (n + 1) = false := by
          simp only [capHit, decide_eq_false_iff_not]
          omega
        by_cases hc : f c = true
        · simp only [attackGo, hcapHit, Bool.false_eq_true, if_false, hc, if_true]
          constructor
          · intro h; simp [Prod.ext_iff] at h
          · intro h
            exfalso
            have h0 := h 0 (by omega)
            simp [hc] at h0
        · have hc' : f c = false := by simpa using hc
          simp only [attackGo, hcapHit, Bool.false_eq_true, if_false, hc']
          rw [ih (n + 1) hN (by omega)
            (by simp only [List.length_cons] at hlen; omega)]
          constructor
          · intro h i hi
            cases i with
            | zero => simpa using hc'
            | succ j =>
                have hj := h j (by omega)
                simpa using hj
          · intro h j hj
            have hj1 := h (j + 1) (by omega)
            simpa using hj1

/-- C1: for the verify-style algorithms BCRYPT, ARGON2 and PBKDF2_SHA256 the
match decision of the engines' shared `_try_password` body equals the result
of `HashUtils.verify_hash` on the candidate and the stored target digest, for
every oracle environment — the direct digest-recompute-and-compare branch
never decides the outcome for these algorithms. -/
theorem c1_verify_delegation :
    ∀ (env : CryptoEnv) (hv pw : String) (alg : HashAlgorithm),
      alg ∈ [HashAlgorithm.BCRYPT, HashAlgorithm.ARGON2, HashAlgorithm.PBKDF2_SHA256] →
      tryPassword env hv alg pw = verifyHash env pw hv alg := by
  intro env hv pw alg halg
  simp only [List.mem_cons, List.not_mem_nil, or_false] at halg
  rcases halg with h | h | h <;> subst h
  · cases hB : env.bcryptAvailable <;>
      simp [tryPassword, generateHash, verifyHash, hB]
  · cases hA : env.argon2Available <;>
      simp [tryPassword, generateHash, verifyHash, hA]
  · simp [tryPassword, generateHash]

/-- C1 witness: the delegation theorem applied at a concrete environment,
digest and candidate for BCRYPT. -/
theorem c1_witness :
    HashAlgorithm.BCRYPT ∈
      [HashAlgorithm.BCRYPT, HashAlgorithm.ARGON2, HashAlgorithm.PBKDF2_SHA256] ∧
    tryPassword envA "t" HashAlgorithm.BCRYPT "pw" = verifyHash envA "pw" "t" HashAlgorithm.BCRYPT :=
  ⟨by decide, c1_verify_delegation envA "t" "pw" HashAlgorithm.BCRYPT (by decide)⟩

/-- C2 (code bug): `__init__` lowercases every target digest, including for
the verify-style algorithm BCRYPT.  For the caller-supplied digest "$2B$X"
(containing uppercase letters) the stored digest is "$2b$x"; an oracle whose
`checkpw` accepts candidate "pw" against exactly the caller-supplied digest
therefore accepts via `verify_hash` but the engine reports no match — the
letter case is not preserved and a salted target accepted by verify is not
reported as a match, contradicting the claim. -/
theorem c2_digest_case_folding_bug :
    engineUpperDigest.hashValue = "$2b$x" ∧
    engineUpperDigest.hashValue ≠ "$2B$X" ∧
    verifyHash envUpperDigest "pw" "$2B$X" HashAlgorithm.BCRYPT = true ∧
    tryPassword envUpperDigest engineUpperDigest.hashValue engineUpperDigest.algorithm "pw" = false :=
  ⟨by decide, by decide, by decide, by decide⟩

/-- C3 (amended): the brute-force and mask `attack` bodies are the shared
loop `attackRun` over their generated candidates; with no cap, or with a cap
`N` strictly above the 1-indexed rank of the first matching candidate, the
run stops at that candidate and returns it with the attempt counter equal to
its rank; with a cap `N ≥ 1` and at least `N` candidates, the capped no-match
outcome `(None, N)` occurs exactly when none of the first `N - 1` candidates
matches — the `N`-th candidate is counted but never tried, because the
source checks the cap before trying the current candidate. -/
theorem c3_first_match_wins :
    (∀ (env : CryptoEnv) (e : BruteforceEngine) (cap : Option Nat),
        bruteAttack env e cap =
          attackRun (tryPassword env e.hashValue e.algorithm)
            (bruteGenerateCandidates e) cap) ∧
    (∀ (env : CryptoEnv) (e : MaskEngine) (cap : Option Nat),
        maskAttack env e cap =
          attackRun (tryPassword env e.hashValue e.algorithm)
            (maskGenerateCandidates e.maskPositions) cap) ∧
    (∀ (f : String → Bool) (cs : List String) (p : Nat),
        p < cs.length → f (cs.getD p "") = true →
        (∀ i, i < p → f (cs.getD i "") = false) →
        attackRun f cs none = (some (cs.getD p ""), p + 1) ∧
        ∀ N, p + 1 < N → attackRun f cs (some N) = (some (cs.getD p ""), p + 1)) ∧
    (∀ (f : String → Bool) (cs : List String) (N : Nat),
        0 < N → N ≤ cs.length →
        (attackRun f cs (some N) = (none, N) ↔
          ∀ i, i < N - 1 → f (cs.getD i "") = false)) := by
  refine ⟨fun _ _ _ => rfl, fun _ _ _ => rfl, ?_, ?_⟩
  · intro f cs p hp hf hb
    constructor
    · have h := attackGo_first_match f cs p 0 none hp hf hb (by intro m hm; cases hm)
      simpa using h
    · intro N hN
      have h := attackGo_first_match f cs p 0 (some N) hp hf hb
        (by intro m hm; injection hm with hm'; omega)
      simpa using h
  · intro f cs N hN hlen
    have h := attackGo_capped_iff f N cs 0 hN hN (by omega)
    simpa using h

/-- C3 counterexample: target digest "b" over the identity digest oracle,
charset "ab", lengths 1..1, so the first (and only) matching candidate "b"
has rank 2; with attempt cap N = 2 the rank satisfies k ≤ N, yet the run
returns `None` with 2 attempts instead of returning "b" — the claim's
"k ≤ N" bound is false at k = N. -/
theorem c3_counterexample :
    bruteGenerateCandidates engineFastSmall = ["a", "b"] ∧
    tryPassword envA engineFastSmall.hashValue engineFastSmall.algorithm "a" = false ∧
    tryPassword envA engineFastSmall.hashValue engineFastSmall.algorithm "b" = true ∧
    bruteAttack envA engineFastSmall (some 2) = (none, 2) ∧
    bruteAttack envA engineFastSmall (some 2) ≠ (some "b", 2) :=
  ⟨by decide, by decide, by decide, by decide, by decide⟩

/-- C3 witness: the amended theorem applied to a concrete two-candidate run
whose first match has rank 2 — uncapped and under cap 3 it is found with
2 attempts; under cap 2 the capped no-match outcome holds because the single
candidate before the cap does not match. -/
theorem c3_witness :
    attackRun (fun s => s == "b") ["a", "b"] none = (some "b", 2) ∧
    attackRun (fun s => s == "b") ["a", "b"] (some 3) = (some "b", 2) ∧
    attackRun (fun s => s == "b") ["a", "b"] (some 2) = (none, 2) := by
  have h := c3_first_match_wins.2.2.1 (fun s => s == "b") ["a", "b"] 1
    (by decide) (by decide)
    (by intro i hi; have h0 : i = 0 := Nat.lt_one_iff.mp hi; subst h0; decide)
  refine ⟨by simpa using h.1, by simpa using h.2 3 (by omega), ?_⟩
  exact (c3_first_match_wins.2.2.2 (fun s => s == "b") ["a", "b"] 2
    (by omega) (by decide)).mpr
    (by intro i hi; have h0 : i = 0 := Nat.lt_one_iff.mp hi; subst h0; decide)

/-- C4 (amended): when the optional backend of a verify-style algorithm is
missing — the bcrypt library for BCRYPT or the argon2 library for ARGON2 —
`generate_hash` raises its `ValueError` at every hash call, but the engines'
`_try_password` catches it per candidate and treats it as no match; the
attack run is not aborted and enumerates the entire keyspace, returning no
match with the attempt counter equal to the keyspace size. -/
theorem c4_backend_missing_not_fatal :
    ∀ (env : CryptoEnv) (e : BruteforceEngine) (msg : String),
      (e.algorithm = HashAlgorithm.BCRYPT ∧ env.bcryptAvailable = false ∧
        msg = "bcrypt library not installed. Install with: pip install bcrypt") ∨
      (e.algorithm = HashAlgorithm.ARGON2 ∧ env.argon2Available = false ∧
        msg = "argon2-cffi library not installed. Install with: pip install argon2-cffi") →
      (∀ pw, generateHash env pw e.algorithm none 10 = Except.error msg) ∧
      (∀ pw, tryPassword env e.hashValue e.algorithm pw = false) ∧
      bruteAttack env e none = (none, (bruteGenerateCandidates e).length) := by
  intro env e msg hcase
  have hgen : ∀ pw, generateHash env pw e.algorithm none 10 = Except.error msg := by
    intro pw
    rcases hcase with ⟨hA, hB, hmsg⟩ | ⟨hA, hB, hmsg⟩ <;>
      rw [hA, hmsg] <;> simp [generateHash, hB]
  have htry : ∀ pw, tryPassword env e.hashValue e.algorithm pw = false := by
    intro pw
    unfold tryPassword
    rw [hgen pw]
  refine ⟨hgen, htry, ?_⟩
  have h := attackGo_none_exhaust (tryPassword env e.hashValue e.algorithm)
    (bruteGenerateCandidates e) 0 (fun c _ => htry c)
  simpa [bruteAttack, attackRun] using h

/-- C4 counterexample: with the bcrypt (resp. argon2) library absent, the
first hash call does raise, but the two-candidate BCRYPT (resp. ARGON2)
brute-force run completes normally with 2 attempts instead of aborting at
the first attempted call. -/
theorem c4_counterexample :
    generateHash envNoBcrypt "a" HashAlgorithm.BCRYPT none 10 =
      Except.error "bcrypt library not installed. Install with: pip install bcrypt" ∧
    bruteAttack envNoBcrypt engineBcryptSmall none = (none, 2) ∧
    ¬(bruteAttack envNoBcrypt engineBcryptSmall none).2 ≤ 1 ∧
    generateHash envNoArgon2 "a" HashAlgorithm.ARGON2 none 10 =
      Except.error "argon2-cffi library not installed. Install with: pip install argon2-cffi" ∧
    bruteAttack envNoArgon2 engineArgon2Small none = (none, 2) ∧
    ¬(bruteAttack envNoArgon2 engineArgon2Small none).2 ≤ 1 :=
  ⟨rfl, by decide, by decide, rfl, by decide, by decide⟩

/-- C4 witness: the amended theorem applied to both concrete missing-backend
environments — bcrypt absent with the BCRYPT engine and argon2 absent with
the ARGON2 engine — each over its two-candidate keyspace. -/
theorem c4_witness :
    tryPassword envNoBcrypt engineBcryptSmall.hashValue engineBcryptSmall.algorithm "a" = false ∧
    bruteAttack envNoBcrypt engineBcryptSmall none = (none, 2) ∧
    tryPassword envNoArgon2 engineArgon2Small.hashValue engineArgon2Small.algorithm "a" = false ∧
    bruteAttack envNoArgon2 engineArgon2Small none = (none, 2) := by
  have hb := c4_backend_missing_not_fatal envNoBcrypt engineBcryptSmall
    "bcrypt library not installed. Install with: pip install bcrypt"
    (Or.inl ⟨rfl, rfl, rfl⟩)
  have ha := c4_backend_missing_not_fatal envNoArgon2 engineArgon2Small
    "argon2-cffi library not installed. Install with: pip install argon2-cffi"
    (Or.inr ⟨rfl, rfl, rfl⟩)
  exact ⟨hb.2.1 "a", hb.2.2.trans (by decide), ha.2.1 "a", ha.2.2.trans (by decide)⟩

/-- C5 (amended): invalid generator configuration is not rejected at
construction: a mask engine built from the empty mask (zero positions) and a
brute-force engine with an empty charset are both constructed without error;
the empty mask's run yields exactly one candidate, the empty string, while
the empty-charset brute-force run yields no candidates. -/
theorem c5_no_construction_validation :
    (∀ (hv : String) (alg : HashAlgorithm),
        (MaskEngine.init hv alg "").maskPositions = [] ∧
        maskGenerateCandidates (MaskEngine.init hv alg "").maskPositions = [""]) ∧
    (∀ (hv : String) (alg : HashAlgorithm) (minLen maxLen : Int),
        bruteGenerateCandidates (BruteforceEngine.init hv alg "" minLen maxLen) = []) := by
  constructor
  · intro hv alg
    exact ⟨rfl, rfl⟩
  · intro hv alg minLen maxLen
    unfold bruteGenerateCandidates
    apply List.flatMap_eq_nil_iff.mpr
    intro len hlen
    obtain ⟨h1, _⟩ := List.mem_range'_1.mp hlen
    have hmin : 1 ≤ (BruteforceEngine.init hv alg "" minLen maxLen).minLength := by
      show 1 ≤ (max 1 minLen).toNat
      have hle := le_max_left (1 : Int) minLen
      omega
    obtain ⟨k, hk⟩ : ∃ k, len = k + 1 := ⟨len - 1, by omega⟩
    subst hk
    have hcs : (BruteforceEngine.init hv alg "" minLen maxLen).charset.toList = [] := rfl
    rw [hcs]
    simp [pyProduct]

/-- C5 counterexample: the empty mask produces a constructed engine with zero
positions whose candidate run yields the empty string — a run from this
"invalid" configuration does yield a candidate, and no error was raised. -/
theorem c5_counterexample :
    (MaskEngine.init "h" HashAlgorithm.SHA256 "").maskPositions = [] ∧
    maskGenerateCandidates (MaskEngine.init "h" HashAlgorithm.SHA256 "").maskPositions = [""] ∧
    maskGenerateCandidates (MaskEngine.init "h" HashAlgorithm.SHA256 "").maskPositions ≠ [] :=
  ⟨rfl, rfl, by decide⟩

/-- C9: any exception inside the match step is caught there and treated as
"no match": whenever digest computation fails for a candidate, the shared
`_try_password` body returns `false` rather than propagating, and the
dictionary attack loop continues past that candidate, merely incrementing
the attempt counter around the run over the remaining words. -/
theorem c9_fail_closed :
    ∀ (env : CryptoEnv) (e : DictionaryEngine) (pw err : String) (rest : List String),
      generateHash env pw e.algorithm none 10 = Except.error err →
      tryPassword env e.hashValue e.algorithm pw = false ∧
      dictAttack env e (pw :: rest) =
        ((dictAttack env e rest).1, (dictAttack env e rest).2 + 1) := by
  intro env e pw err rest herr
  have hfalse : tryPassword env e.hashValue e.algorithm pw = false := by
    unfold tryPassword
    rw [herr]
  refine ⟨hfalse, ?_⟩
  unfold dictAttack attackRun
  simp only [attackGo, capHit, hfalse, Bool.false_eq_true, if_false]
  exact attackGo_none_shift _ rest 1

/-- C9 witness: the fail-closed theorem applied to the missing-bcrypt
environment, where hashing candidate "a" raises: the step yields no match and
the run continues with the remaining word. -/
theorem c9_witness :
    tryPassword envNoBcrypt dictEngineBcrypt.hashValue dictEngineBcrypt.algorithm "a" = false ∧
    dictAttack envNoBcrypt dictEngineBcrypt ["a", "b"] =
      ((dictAttack envNoBcrypt dictEngineBcrypt ["b"]).1,
        (dictAttack envNoBcrypt dictEngineBcrypt ["b"]).2 + 1) :=
  c9_fail_closed envNoBcrypt dictEngineBcrypt "a"
    "bcrypt library not installed. Install with: pip install bcrypt" ["b"] rfl

/-- C10: a cap of `0` is falsy in the source's `if max_attempts and ...`
test, so `attack` with `max_attempts = 0` behaves exactly like an uncapped
run — it never stops after zero attempts, and with no matching candidate it
enumerates the full keyspace. -/
theorem c10_zero_cap_disables :
    (∀ (f : String → Bool) (cs : List String),
        attackRun f cs (some 0) = attackRun f cs none) ∧
    (∀ (env : CryptoEnv) (e : BruteforceEngine),
        bruteAttack env e (some 0) = bruteAttack env e none) ∧
    (∀ (env : CryptoEnv) (e : MaskEngine),
        maskAttack env e (some 0) = maskAttack env e none) ∧
    (∀ (f : String → Bool) (cs : List String),
        (∀ c ∈ cs, f c = false) → attackRun f cs (some 0) = (none, cs.length)) := by
  have hrun : ∀ (f : String → Bool) (cs : List String),
      attackRun f cs (some 0) = attackRun f cs none :=
    fun f cs => attackGo_zero_cap f cs 0
  refine ⟨hrun, fun env e => hrun _ _, fun env e => hrun _ _, ?_⟩
  intro f cs h
  rw [hrun]
  have hex := attackGo_none_exhaust f cs 0 h
  simpa [attackRun] using hex

/-- C10 witness: the zero-cap theorem applied to a concrete engine run and a
concrete matcher that rejects everything, showing the full two-candidate
keyspace is enumerated under `max_attempts = 0`. -/
theorem c10_witness :
    bruteAttack envNoBcrypt engineBcryptSmall (some 0) =
      bruteAttack envNoBcrypt engineBcryptSmall none ∧
    attackRun (fun _ => false) ["a", "b"] (some 0) = (none, 2) := by
  refine ⟨c10_zero_cap_disables.2.1 envNoBcrypt engineBcryptSmall, ?_⟩
  have h := c10_zero_cap_disables.2.2.2 (fun _ => false) ["a", "b"]
    (fun c _ => rfl)
  simpa using h

/-- C7: mask parsing special-cases exactly the tokens ?l ?u ?d ?s ?a ?h ?H;
any other ?-prefixed pair is consumed as the single literal '?' with the
following character re-scanned separately, so "?x" parses to the two literal
positions "?" and "x" with keyspace size 1. -/
theorem c7_mask_unknown_token :
    (∀ (c : Char) (rest : List Char), c ∈ placeholderLetters →
        parseMask ('?' :: c :: rest) = maskCharsFor c :: parseMask rest) ∧
    (∀ (c : Char) (rest : List Char), c ∉ placeholderLetters →
        parseMask ('?' :: c :: rest) = "?" :: parseMask (c :: rest)) ∧
    (∀ (hv : String) (alg : HashAlgorithm),
        (MaskEngine.init hv alg "?x").maskPositions = ["?", "x"]) ∧
    estimateTotalMask ["?", "x"] = 1 := by
  refine ⟨?_, ?_, ?_, by decide⟩
  · intro c rest hc
    show (if '?' = '?' ∧ c ∈ placeholderLetters then maskCharsFor c :: parseMask rest
      else String.mk ['?'] :: parseMask (c :: rest)) = maskCharsFor c :: parseMask rest
    rw [if_pos ⟨rfl, hc⟩]
  · intro c rest hc
    show (if '?' = '?' ∧ c ∈ placeholderLetters then maskCharsFor c :: parseMask rest
      else String.mk ['?'] :: parseMask (c :: rest)) = "?" :: parseMask (c :: rest)
    rw [if_neg]
    rintro ⟨-, hmem⟩
    exact hc hmem
  · intro hv alg
    show parseMask "?x".toList = ["?", "x"]
    rfl

/-- C7 witness: the parsing theorem applied at the recognized token ?l, at
the unrecognized pair ?x, and at the concrete mask "?x". -/
theorem c7_witness :
    parseMask ('?' :: 'l' :: []) = maskCharsFor 'l' :: parseMask [] ∧
    parseMask ('?' :: 'x' :: []) = "?" :: parseMask ('x' :: []) ∧
    (MaskEngine.init "h" HashAlgorithm.MD5 "?x").maskPositions = ["?", "x"] :=
  ⟨c7_mask_unknown_token.1 'l' [] (by decide),
   c7_mask_unknown_token.2.1 'x' [] (by decide),
   c7_mask_unknown_token.2.2.1 "h" HashAlgorithm.MD5⟩

/-- Round trip between `String.mk` and `String.toList`. -/
lemma toList_mk (l : List Char) : (String.mk l).toList = l := rfl

/-- The five sequential single-character replacements of `leetspeak_simple`
agree pointwise with the simultaneous substitution table: the substitution
targets and images are disjoint, so nothing cascades. -/
lemma leet_pointwise (c : Char) :
    (fun x => if x == 's' then '$' else x)
      ((fun x => if x == 'o' then '0' else x)
        ((fun x => if x == 'i' then '1' else x)
          ((fun x => if x == 'e' then '3' else x)
            ((fun x => if x == 'a' then '@' else x) c)))) = leetTable c := by
  by_cases h1 : c = 'a'
  · subst h1; decide
  · by_cases h2 : c = 'e'
    · subst h2; decide
    · by_cases h3 : c = 'i'
      · subst h3; decide
      · by_cases h4 : c = 'o'
        · subst h4; decide
        · by_cases h5 : c = 's'
          · subst h5; decide
          · simp [leetTable, h1, h2, h3, h4, h5]

/-- The whole sequential replacement chain over a character list equals the
single simultaneous table map. -/
lemma leet_chain_list : ∀ l : List Char,
    List.map (fun c => if c == 's' then '$' else c)
      (List.map (fun c => if c == 'o' then '0' else c)
        (List.map (fun c => if c == 'i' then '1' else c)
          (List.map (fun c => if c == 'e' then '3' else c)
            (List.map (fun c => if c == 'a' then '@' else c) l)))) =
      List.map leetTable l := by
  intro l
  induction l with
  | nil => rfl
  | cons c cl ih => exact congrArg₂ List.cons (leet_pointwise c) ih

/-- C8: for every word, `leetspeak_simple` yields exactly one candidate,
namely the lowercased word with the replacements a→@, e→3, i→1, o→0, s→$
applied sequentially in that fixed order as whole-string single passes; the
sequential chain coincides with the simultaneous (non-cascading) table map,
and "Sales" yields "$@l3$". -/
theorem c8_leetspeak_simple :
    (∀ w : String, applyRules w ["leetspeak_simple"] =
        [strReplace (strReplace (strReplace (strReplace (strReplace
          (pyLower w) 'a' '@') 'e' '3') 'i' '1') 'o' '0') 's' '$']) ∧
    (∀ w : String, strReplace (strReplace (strReplace (strReplace (strReplace
          (pyLower w) 'a' '@') 'e' '3') 'i' '1') 'o' '0') 's' '$' =
        String.mk ((pyLower w).toList.map leetTable)) ∧
    applyRules "Sales" ["leetspeak_simple"] = ["$@l3$"] := by
  refine ⟨?_, ?_, by decide⟩
  · intro w
    rfl
  · intro w
    exact congrArg String.mk (leet_chain_list (pyLower w).toList)

/-- Reading a list back off by indexing over `List.range`. -/
lemma range_map_getD (cs : List Char) :
    (List.range cs.length).map (fun i => cs.getD i ' ') = cs := by
  induction cs with
  | nil => rfl
  | cons c rest ih =>
      rw [List.length_cons, List.range_succ_eq_map]
      simp only [List.map_cons, List.getD_cons_zero, List.map_map]
      exact congrArg (List.cons c) ih

/-- `flatMap` congruence on members. -/
lemma flatMap_congr_mem {α β : Type} (l : List α) (f g : α → List β)
    (h : ∀ a ∈ l, f a = g a) : l.flatMap f = l.flatMap g := by
  induction l with
  | nil => rfl
  | cons x xs ih =>
      simp only [List.flatMap_cons]
      rw [h x (List.mem_cons_self x xs), ih (fun a ha => h a (List.mem_cons_of_mem x ha))]

/-- `flatMap` over a character list as `flatMap` over its index range. -/
lemma flatMap_eq_range_getD (cs : List Char) (f : Char → List (List Char)) :
    cs.flatMap f = (List.range cs.length).flatMap (fun i => f (cs.getD i ' ')) := by
  conv_lhs => rw [← range_map_getD cs]
  rw [List.flatMap_map]

/-- Counting `0 .. a*b-1` in blocks: quotient block index outside, remainder
inside. -/
lemma range_mul_flatMap (a b : Nat) :
    List.range (a * b) =
      (List.range a).flatMap (fun i => (List.range b).map (fun j => i * b + j)) := by
  induction a with
  | zero => simp
  | succ a ih =>
      rw [List.range_succ, List.flatMap_append, ← ih, add_one_mul, List.range_add]
      simp

/-- `itertools.product(cs, repeat := L)` is exactly base-`|cs|` counting:
the `k`-th tuple consists of the characters indexed by the big-endian
base-`|cs|` digits of `k`. -/
lemma pyProduct_eq_count (cs : List Char) : ∀ L : Nat,
    pyProduct cs L = (List.range (cs.length ^ L)).map
      (fun k => (natTupleBE cs.length L k).map (fun i => cs.getD i ' ')) := by
  intro L
  induction L with
  | zero => rfl
  | succ L ih =>
      rcases Nat.eq_zero_or_pos cs.length with hn | hn
      · have hcs : cs = [] := List.length_eq_zero.mp hn
        subst hcs
        have h0 : (List.length ([] : List Char)) ^ (L + 1) = 0 := by
          simp [pow_succ]
        rw [h0]
        rfl
      · have hb : 0 < cs.length ^ L := pow_pos hn L
        show cs.flatMap (fun c => (pyProduct cs L).map (fun t => c :: t)) = _
        rw [flatMap_eq_range_getD, ih, pow_succ', range_mul_flatMap, List.map_flatMap]
        apply flatMap_congr_mem
        intro i _
        rw [List.map_map, List.map_map]
        apply List.map_congr_left
        intro j hj
        have hjb : j < cs.length ^ L := List.mem_range.mp hj
        simp only [Function.comp_apply]
        have hdiv : (i * cs.length ^ L + j) / cs.length ^ L = i := by
          rw [Nat.add_comm, Nat.add_mul_div_right _ _ hb, Nat.div_eq_of_lt hjb,
            Nat.zero_add]
        have hmod : (i * cs.length ^ L + j) % cs.length ^ L = j := by
          rw [Nat.add_comm, Nat.add_mul_mod_self_right, Nat.mod_eq_of_lt hjb]
        rw [show natTupleBE cs.length (L + 1) (i * cs.length ^ L + j) =
          (i * cs.length ^ L + j) / cs.length ^ L ::
            natTupleBE cs.length L ((i * cs.length ^ L + j) % cs.length ^ L) from rfl]
        rw [hdiv, hmod, List.map_cons]

/-- C6: the effective length bounds are `min = max(1, minLength)` and
`max = max(min, maxLength)`; for each length `L` from min to max inclusive
(shorter lengths fully exhausted first) the generator emits every `L`-tuple
over the charset in lexicographic charset order with the leftmost position
varying slowest — formalized as base-`|charset|` counting over
`0 .. |charset|^L - 1` with big-endian digits as charset indices; for charset
"ab", minLength 1, maxLength 2 the sequence is exactly
a, b, aa, ab, ba, bb. -/
theorem c6_bruteforce_enumeration :
    (∀ (hv : String) (alg : HashAlgorithm) (cs : String) (minLen maxLen : Int),
        (BruteforceEngine.init hv alg cs minLen maxLen).minLength =
          (max 1 minLen).toNat ∧
        (BruteforceEngine.init hv alg cs minLen maxLen).maxLength =
          (max (max 1 minLen) maxLen).toNat) ∧
    (∀ e : BruteforceEngine,
        bruteGenerateCandidates e =
          (List.range' e.minLength (e.maxLength + 1 - e.minLength)).flatMap (fun L =>
            (List.range (e.charset.toList.length ^ L)).map (fun k =>
              String.mk ((natTupleBE e.charset.toList.length L k).map
                (fun i => e.charset.toList.getD i ' '))))) ∧
    bruteGenerateCandidates (BruteforceEngine.init "h" HashAlgorithm.SHA256 "ab" 1 2) =
      ["a", "b", "aa", "ab", "ba", "bb"] := by
  refine ⟨fun hv alg cs minLen maxLen => ⟨rfl, rfl⟩, ?_, by decide⟩
  intro e
  unfold bruteGenerateCandidates
  apply flatMap_congr_mem
  intro L _
  rw [pyProduct_eq_count, List.map_map]
  rfl
